import Mathlib

/-!
Shallow embedding of the pdf-tool-backend document-parsing and embedding
pipeline, together with proofs of the specification claims.

The definitions below are translated from:
  * src/src/models/Document.js, src/src/models/embedings.js   (data model)
  * src/src/services/generateEmbeddingsFromMongo.js           (embedding pipeline)
  * src/src/controllers/embedingController.js                 (start/stop embedding)
  * src/src/services/llamaIndexService.js                     (job-based parser adapter)
  * src/unnamed/part_009 (ocr controller)                     (parsing orchestrator)

External collaborators (MongoDB, the Mistral/LlamaIndex/OpenAI network
services, JSON.parse) are modelled as oracles passed in as parameters; the
repository's own control flow is translated directly.
-/

namespace PdfTool

/-- JavaScript `a || b` on an optional string: the empty string is falsy,
so `undefined`, `null` and `''` all fall through to the default. -/
def jsOrString : Option String → String → String
  | some s, d => if s = "" then d else s
  | none, d => d

/-- JavaScript `a || b` on an optional number: `0` is falsy. -/
def jsOrNat : Option Nat → Nat → Nat
  | some n, d => if n = 0 then d else n
  | none, d => d

/-- `text.split(/\s+/).filter(w => w.length > 0).length` -/
def countWords (s : String) : Nat :=
  ((s.split (fun c => c.isWhitespace)).filter (fun w => w ≠ "")).length

/-! ## Data model (src/src/models/Document.js) -/

/-- The `parsingStatus` enum of the Document schema. -/
inductive ParsingStatus where
  | pending | processing | completed | failed
deriving DecidableEq, Repr

/-- The `embeddingStatus` enum of the Document schema. -/
inductive EmbeddingStatus where
  | not_started | processing | completed
deriving DecidableEq, Repr

/-- The `embeddingProgress` checkpoint `{currentPage, currentChunk}`. -/
structure EmbeddingProgress where
  currentPage : Nat
  currentChunk : Nat
deriving DecidableEq, Repr

/-- One entry of `pagesData` in the Document schema. -/
structure PageData where
  pageNumber : Nat
  text : String
  markdown : String
  tables : List String
  images : List String
  header : Option String
  footer : Option String
  confidence : Option Nat
  wordCount : Nat
  characterCount : Nat
  summary : Option String
deriving DecidableEq, Repr

/-- The `metadata` sub-document of a Document (the fields the claims touch). -/
structure DocMetadata where
  parser : Option String
  bookName : Option String
  authorName : Option String
  category : Option String
  model : Option String
  jobId : Option Nat
  pageCount : Option Nat
  processingTime : Option Nat
  usage : Option String
  documentAnnotation : Option String
  error : Option String
  storageType : Option String
deriving DecidableEq, Repr

/-- The Document aggregate (src/src/models/Document.js). -/
structure Document where
  id : Nat
  userId : Nat
  fileName : String
  originalText : String
  editedText : Option String
  pages : Nat
  pagesData : List PageData
  tables : List String
  images : List String
  parsingStatus : ParsingStatus
  embeddingStatus : EmbeddingStatus
  embeddingProgress : Option EmbeddingProgress
  metadata : DocMetadata
deriving DecidableEq, Repr

/-! ## Vector records (src/src/models/embedings.js)

The `embeddingsSchema` declares a unique compound index on
`(documentId, pageNumber, chunkIndex)`; a duplicate insert is rejected by
the store with Mongo error code 11000. Embedding vectors are opaque to all
repository logic, here represented as `List Int`. -/

structure VectorRecord where
  documentId : Nat
  userId : Nat
  fileName : String
  pageNumber : Nat
  chunkIndex : Nat
  text : String
  embedding : List Int
  metaBookName : Option String
  metaAuthorName : Option String
  metaCategory : Option String
  metaSummary : Option String
deriving DecidableEq, Repr

/-- The unique-index key of a vector record. -/
def recKey (r : VectorRecord) : Nat × Nat × Nat :=
  (r.documentId, r.pageNumber, r.chunkIndex)

/-- The keys present in a store. -/
def storeKeys (store : List VectorRecord) : List (Nat × Nat × Nat) :=
  store.map recKey

/-- The storage-layer uniqueness invariant on (documentId, pageNumber, chunkIndex). -/
def UniqueKeys (store : List VectorRecord) : Prop :=
  (storeKeys store).Nodup

/-- Outcome of a single `Embeddings.create` call. `duplicateKey` is Mongo
error code 11000 (unique-index violation); `otherError` stands for any other
persist failure, driven by the `failure` oracle. -/
inductive PersistError where
  | duplicateKey
  | otherError (msg : String)
deriving DecidableEq, Repr

/-- Model of `Embeddings.create(...)` against a store with the unique compound index:
a record whose key is already present is rejected with code 11000; otherwise
the insert succeeds unless the environment (`failure` oracle) makes it fail
for another reason. -/
def insertVectorRecord (failure : VectorRecord → Option String)
    (store : List VectorRecord) (r : VectorRecord) :
    Except PersistError (List VectorRecord) :=
  if recKey r ∈ storeKeys store then
    .error .duplicateKey
  else
    match failure r with
    | some msg => .error (.otherError msg)
    | none => .ok (store ++ [r])

/-! ## Embedding pipeline (src/src/services/generateEmbeddingsFromMongo.js) -/

/-- The constant `BATCH_SIZE = 20` — "Safe number of pages to stay under token limits". -/
def BATCH_SIZE : Nat := 20

/-- The embeddable text unit composed per page (lines 37-41):
`[Metadata: Book ...] [Summary: ...]\n\n[Content]:\n<page text>`. -/
def composeEmbeddingInput (doc : Document) (page : PageData) : String :=
  let metadataStr := "[Metadata: Book: " ++ jsOrString doc.metadata.bookName "N/A"
    ++ ", Author: " ++ jsOrString doc.metadata.authorName "N/A"
    ++ ", Category: " ++ jsOrString doc.metadata.category "N/A" ++ "]"
  let summaryStr := "[Summary: " ++ jsOrString page.summary "N/A" ++ "]"
  metadataStr ++ " " ++ summaryStr ++ "\n\n[Content]:\n" ++ page.text

/-- The record handed to `Embeddings.create` for one page. -/
def mkVectorRecord (doc : Document) (page : PageData) (embedding : List Int) :
    VectorRecord :=
  { documentId := doc.id
    userId := doc.userId
    fileName := doc.fileName
    pageNumber := page.pageNumber
    chunkIndex := 0
    text := page.text
    embedding := embedding
    metaBookName := doc.metadata.bookName
    metaAuthorName := doc.metadata.authorName
    metaCategory := doc.metadata.category
    metaSummary := page.summary }

/-- The inner `for (j …)` loop storing one batch in MongoDB (lines 76-102):
each `Embeddings.create` is wrapped in try/catch; a duplicate-key failure
(`e.code === 11000`) is swallowed silently, any other failure is logged to
the console, and in every case the loop continues with the next record.
Returns the store after the batch together with the logged error lines. -/
def storeBatchMongo (failure : VectorRecord → Option String) (doc : Document) :
    List PageData → List (List Int) → List VectorRecord →
    List VectorRecord × List String
  | [], _, store => (store, [])
  | page :: rest, embs, store =>
    let r := mkVectorRecord doc page (embs.headD [])
    match insertVectorRecord failure store r with
    | .ok store' =>
      storeBatchMongo failure doc rest embs.tail store'
    | .error .duplicateKey =>
      storeBatchMongo failure doc rest embs.tail store
    | .error (.otherError msg) =>
      let out := storeBatchMongo failure doc rest embs.tail store
      (out.1, ("Error saving page " ++ toString page.pageNumber ++ ": " ++ msg) :: out.2)

/-- Result of the batch loop: the final in-memory document, the vector store,
the `document.save()` snapshots made inside the loop (in order), the
provider submissions (in order) and the logged per-record errors. -/
structure LoopOut where
  doc : Document
  store : List VectorRecord
  saves : List Document
  calls : List (List String)
  logs : List String

/-- The `for (let i = 0; i < allInputs.length; i += BATCH_SIZE)` loop
(lines 46-112), in the standard fuel encoding so that it reduces in the
kernel: slice a batch of at most 20 inputs/pages, submit the batch to the
embedding provider in one call, store the returned vectors, then set
`embeddingProgress = { currentPage: i + batch.length, currentChunk: 0 }` and
persist the document. Each iteration consumes at least one input and one
unit of fuel, so with `fuel = inputs.length` (as `embeddingLoop` passes)
the zero-fuel guard is unreachable and the recursion is exactly the source
loop. `createEmbedding` is the provider oracle. -/
def embeddingLoopGo (createEmbedding : List String → List (List Int))
    (failure : VectorRecord → Option String) :
    Nat → Document → List String → List PageData → Nat →
    List VectorRecord → LoopOut
  | 0, doc, _, _, _, store =>
    { doc := doc, store := store, saves := [], calls := [], logs := [] }
  | fuel + 1, doc, inputs, pagesL, i, store =>
    if inputs = [] then
      { doc := doc, store := store, saves := [], calls := [], logs := [] }
    else
      let currentBatchInputs := inputs.take BATCH_SIZE
      let currentBatchPages := pagesL.take BATCH_SIZE
      let embeddings := createEmbedding currentBatchInputs
      let stored := storeBatchMongo failure doc currentBatchPages embeddings store
      let doc' := { doc with
        embeddingProgress := some ⟨i + currentBatchInputs.length, 0⟩ }
      let rest := embeddingLoopGo createEmbedding failure fuel doc'
        (inputs.drop BATCH_SIZE) (pagesL.drop BATCH_SIZE)
        (i + currentBatchInputs.length) stored.1
      { doc := rest.doc
        store := rest.store
        saves := doc' :: rest.saves
        calls := currentBatchInputs :: rest.calls
        logs := stored.2 ++ rest.logs }

/-- The batch loop started with exactly enough fuel for all its inputs. -/
def embeddingLoop (createEmbedding : List String → List (List Int))
    (failure : VectorRecord → Option String) (doc : Document)
    (inputs : List String) (pagesL : List PageData) (i : Nat)
    (store : List VectorRecord) : LoopOut :=
  embeddingLoopGo createEmbedding failure inputs.length doc inputs pagesL i store

/-- Result of one full `processDocumentEmbeddings` run. `saves` lists every
persisted `document.save()` in order; `calls` lists the embedding-provider
submissions in order. -/
structure EmbedRunResult where
  doc : Document
  store : List VectorRecord
  saves : List Document
  calls : List (List String)
  logs : List String

/-- Model of `processDocumentEmbeddings(documentId)` (mongo storage branch), given the
document it loads: initialize `embeddingProgress` to `{0,0}` if missing, set
`embeddingStatus = 'processing'` and save, build one text unit per page of
`pagesData`, run the batch loop from index 0, then on completion set
`embeddingStatus = 'completed'`, reset `embeddingProgress` to `{0,0}`, record
`metadata.storageType` and save. The loop always starts at `i = 0`: the
stored checkpoint is read (logged) but not used to skip work. -/
def processDocumentEmbeddings (createEmbedding : List String → List (List Int))
    (failure : VectorRecord → Option String) (doc0 : Document)
    (store0 : List VectorRecord) : EmbedRunResult :=
  let doc1 := if doc0.embeddingProgress = none then
      { doc0 with embeddingProgress := some ⟨0, 0⟩ } else doc0
  let doc2 := { doc1 with embeddingStatus := .processing }
  let allPages := doc2.pagesData
  let allInputs := allPages.map (composeEmbeddingInput doc2)
  let r := embeddingLoop createEmbedding failure doc2 allInputs allPages 0 store0
  let docF := { r.doc with
    embeddingStatus := .completed
    embeddingProgress := some ⟨0, 0⟩
    metadata := { r.doc.metadata with storageType := some "mongo" } }
  { doc := docF
    store := r.store
    saves := doc2 :: (r.saves ++ [docF])
    calls := r.calls
    logs := r.logs }

/-- The persisted saves made while `embeddingStatus = 'processing'`. -/
def processingSaves (r : EmbedRunResult) : List Document :=
  r.saves.filter (fun d => d.embeddingStatus = .processing)

/-- The `currentPage` values of the checkpoints persisted while
`embeddingStatus = 'processing'`, in save order. -/
def currentPageTrace (r : EmbedRunResult) : List Nat :=
  (processingSaves r).map (fun d => (d.embeddingProgress.getD ⟨0, 0⟩).currentPage)

/-! ## Embedding controller (src/src/controllers/embedingController.js) -/

/-- The in-flight registry: the key set of the module-level
`runningJobs` map of generateEmbeddingsFromMongo.js. -/
abbrev Registry := List Nat

/-- Responses of the `startEmbedding` endpoint. -/
inductive StartEmbeddingResponse where
  | alreadyInProgress        -- 400 "Embedding is already in progress for this document"
  | notFound                 -- 404 "Document not found"
  | alreadyCompleted         -- 400 "This document has already been embedded..."
  | started (resumed : Bool) -- 200; "Embedding resumed" when status was 'processing'
deriving DecidableEq, Repr

/-- Outcome of one `startEmbedding` call: the HTTP response, the registry
afterwards, and whether a `processDocumentEmbeddings` run was launched. -/
structure StartOutcome where
  response : StartEmbeddingResponse
  registry : Registry
  runStarted : Bool
deriving Repr

/-- Model of `exports.startEmbedding` (lines 4-46): reject if the id is already in
`runningJobs`; 404 if the document does not exist; reject if
`embeddingStatus === 'completed'`; otherwise launch the run and add the id
to `runningJobs`. -/
def startEmbedding (registry : Registry) (lookup : Nat → Option Document)
    (documentId : Nat) : StartOutcome :=
  if documentId ∈ registry then
    ⟨.alreadyInProgress, registry, false⟩
  else
    match lookup documentId with
    | none => ⟨.notFound, registry, false⟩
    | some document =>
      if document.embeddingStatus = .completed then
        ⟨.alreadyCompleted, registry, false⟩
      else
        ⟨.started (document.embeddingStatus = .processing),
          documentId :: registry, true⟩

/-- The `findByIdAndUpdate(documentId, { embeddingStatus: 'not_started' })`
performed by `stopEmbedding`: only `embeddingStatus` is written. -/
def stopEmbeddingDocUpdate (d : Document) : Document :=
  { d with embeddingStatus := .not_started }

/-- Outcome of `stopEmbedding`: the registry and the document table after. -/
structure StopOutcome where
  registry : Registry
  lookup : Nat → Option Document

/-- Model of `exports.stopEmbedding` (lines 48-61): unconditionally delete the id
from `runningJobs` and set `embeddingStatus = 'not_started'` on the document
(a no-op lookup-wise when the document does not exist). -/
def stopEmbedding (registry : Registry) (lookup : Nat → Option Document)
    (documentId : Nat) : StopOutcome :=
  ⟨registry.filter (fun j => j ≠ documentId),
   fun i => if i = documentId then (lookup documentId).map stopEmbeddingDocUpdate
            else lookup i⟩

/-! ## Job-based parser adapter (src/src/services/llamaIndexService.js) -/

/-- One `GET /parsing/job/{jobId}` response body (`statusResponse.data`):
the `status` string and the optional `error_message` / `detail` fields. -/
structure JobStatusResponse where
  status : String
  error_message : Option String
  detail : Option String
deriving DecidableEq, Repr

/-- The default polling attempt bound: `parseInt(env, 10) || 300`
("default 300 attempts * 2 seconds = 10 minutes"). -/
def LLAMAINDEX_DEFAULT_MAX_ATTEMPTS : Nat := 300

/-- The fixed wait before each poll: `setTimeout(resolve, 2000)`. -/
def POLL_INTERVAL_MS : Nat := 2000

/-- The message thrown on ERROR/FAILED:
`error_message || detail || "Parsing job failed with status: <status>"`. -/
def backendFailureMessage (r : JobStatusResponse) : String :=
  jsOrString r.error_message
    (jsOrString r.detail ("Parsing job failed with status: " ++ r.status))

/-- Outcome of `monitorJob`: the returned job data or the thrown message,
the number of polls performed, and the waits taken before each poll. -/
structure MonitorResult where
  outcome : Except String JobStatusResponse
  polls : Nat
  waits : List Nat
deriving Repr

/-- The `while (jobStatus !== 'SUCCESS' && attempts < maxAttempts)` loop of
`monitorJob` (lines 119-147): wait 2000 ms, poll, return the data on
`SUCCESS`, throw the backend message on `ERROR`/`FAILED`, and throw
`'Parsing job timed out'` once the attempt bound is exhausted. `poll k` is
the response to the (k+1)-th status request. -/
def monitorJobLoop (poll : Nat → JobStatusResponse) (maxAttempts attempts : Nat) :
    MonitorResult :=
  if attempts < maxAttempts then
    let r := poll attempts
    if r.status = "SUCCESS" then
      ⟨.ok r, attempts + 1, List.replicate (attempts + 1) POLL_INTERVAL_MS⟩
    else if r.status = "ERROR" ∨ r.status = "FAILED" then
      ⟨.error (backendFailureMessage r), attempts + 1,
        List.replicate (attempts + 1) POLL_INTERVAL_MS⟩
    else
      monitorJobLoop poll maxAttempts (attempts + 1)
  else
    ⟨.error "Parsing job timed out", attempts,
      List.replicate attempts POLL_INTERVAL_MS⟩
termination_by maxAttempts - attempts

/-- Model of `monitorJob(client, jobId)`: the polling loop started with
`attempts = 0`. -/
def monitorJob (poll : Nat → JobStatusResponse) (maxAttempts : Nat) :
    MonitorResult :=
  monitorJobLoop poll maxAttempts 0

/-- A poll response that is neither `SUCCESS` nor `ERROR` nor `FAILED`
(e.g. `PENDING`), so the loop keeps polling. -/
def NonTerminal (r : JobStatusResponse) : Prop :=
  r.status ≠ "SUCCESS" ∧ r.status ≠ "ERROR" ∧ r.status ≠ "FAILED"

/-- Helper for `cleanParsedText` (lines 91-111), step by step over the character list:
drop U+FFFD replacement characters, collapse runs of three or more dots to
`...`, collapse runs of two or more spaces to one, collapse runs of three
or more newlines to two, trim every line and drop the empty ones, pad every
`---` with blank lines, and trim the result. -/
def capRun (c : Char) (threshold keep : Nat) (l : List Char) : List Char :=
  ((l.splitBy (fun a b => a == b)).map
    (fun g => if g.headD ' ' = c ∧ threshold ≤ g.length then
        List.replicate keep c else g)).flatten

/-- The U+FFFD replacement character removed by `cleanParsedText`. -/
def replacementChar : Char := Char.ofNat 0xFFFD

def cleanParsedText (text : String) : String :=
  if text = "" then ""
  else
    let s1 := String.mk (text.data.filter (fun ch => ch ≠ replacementChar))
    let s2 := String.mk (capRun '.' 3 3 s1.data)
    let s3 := String.mk (capRun ' ' 2 1 s2.data)
    let s4 := String.mk (capRun '\n' 3 2 s3.data)
    let s5 := String.intercalate "\n"
      (((s4.splitOn "\n").map String.trim).filter (fun line => line.length > 0))
    let s6 := s5.replace "---" "\n\n---\n\n"
    s6.trim

/-- One page object inside the JSON result payload (either the custom
schema requested by the parsing instruction or the LlamaParse default). -/
structure RawJsonPage where
  page_number : Option Nat
  page : Option Nat
  clean_text : Option String
  text : Option String
  md : Option String
  summary : Option String
  word_count : Option Nat
  character_count : Option Nat
deriving DecidableEq, Repr

/-- The shape of `GET .../result/json` data (and of any `JSON.parse`
output): an object with a `pages` array, a bare array of page objects, a
string payload, or anything else (no usable structure). -/
inductive JsonData where
  | pagesObj (pages : List RawJsonPage)
  | arr (pages : List RawJsonPage)
  | str (s : String)
  | other
deriving Repr

/-- A normalized page produced by `processJobResult`. -/
structure NormPage where
  pageNumber : Nat
  text : String
  markdown : String
  summary : String
  wordCount : Nat
  characterCount : Nat
deriving DecidableEq, Repr

/-- The job-details response used for result metadata. -/
structure JobDetails where
  file_size : Option Nat
  page_count : Option Nat
  processing_time : Option Nat
  credits_used : Option Nat
deriving DecidableEq, Repr

/-- The uniform parse result `{pages[], text, ...}`. -/
structure JobResult where
  success : Bool
  jobId : Nat
  text : String
  pages : List NormPage
  status : String
  pageCount : Nat
deriving DecidableEq, Repr

/-- Model of `parsedData.replace(/^```json\s*|\s*```$/g, '')`: strip an opening
```` ```json ```` fence and a closing ```` ``` ```` fence (with adjacent
whitespace) from the ends of the string. -/
def stripOuterCodeFence (s : String) : String :=
  let a := if s.startsWith "```json" then (s.drop 7).trimLeft else s
  if a.endsWith "```" then (a.dropRight 3).trimRight else a

/-- Model of `jsonStr.replace(/```json\s?|\s?```/g, '')` on a page's markdown before
the inner `JSON.parse`. (The regex also consumes one optional adjacent
whitespace character; the result is passed straight to the opaque
`JSON.parse` oracle, so that difference is immaterial to every claim.) -/
def stripAllCodeFences (s : String) : String :=
  (s.replace "```json" "").replace "```" ""

/-- The per-page body of the `parsedData.pages.forEach` (lines 194-236):
choose `clean_text || text || md || ''`; if the markdown itself looks like
the requested JSON schema, unwrap it through the `JSON.parse` oracle and
take the first inner page's text/summary; skip blank pages; otherwise clean
the text and build the normalized page. -/
def processStructuredPage (parseJson : String → Option JsonData)
    (index : Nat) (page : RawJsonPage) : Option NormPage :=
  let pageText0 := jsOrString page.clean_text
    (jsOrString page.text (jsOrString page.md ""))
  let pageSummary0 := jsOrString page.summary ""
  let chosen :=
    match page.md with
    | some md =>
      if md.trim.startsWith "\x7b" ∨ md.trim.startsWith "```json" then
        match parseJson ((stripAllCodeFences md).trim) with
        | some (.pagesObj (innerPage :: _)) =>
          (jsOrString innerPage.clean_text (jsOrString innerPage.text pageText0),
           jsOrString innerPage.summary pageSummary0)
        | _ => (pageText0, pageSummary0)
      else (pageText0, pageSummary0)
    | none => (pageText0, pageSummary0)
  if chosen.1.trim.length = 0 then none
  else
    let cleanedText := cleanParsedText chosen.1
    some { pageNumber := jsOrNat page.page_number (jsOrNat page.page (index + 1))
           text := cleanedText
           markdown := cleanedText
           summary := chosen.2
           wordCount := jsOrNat page.word_count (countWords cleanedText)
           characterCount := jsOrNat page.character_count cleanedText.length }

/-- The per-page body of the bare-array branch (lines 247-263). -/
def processArrayPage (index : Nat) (page : RawJsonPage) : Option NormPage :=
  let pageText := jsOrString page.clean_text
    (jsOrString page.text (jsOrString page.md ""))
  if pageText.trim.length = 0 then none
  else
    let cleanedText := cleanParsedText pageText
    some { pageNumber := index + 1
           text := cleanedText
           markdown := cleanedText
           summary := jsOrString page.summary ""
           wordCount := countWords cleanedText
           characterCount := cleanedText.length }

/-- Model of `processJobResult` (lines 155-314). `jsonFetch` is the outcome of
`GET .../result/json` (an exception falls into the catch), `parseJson` is
the `JSON.parse` oracle, `flatText` is the flat-text result
(`textResponse.data.text || textResponse.data`). A string payload is
unfenced and re-parsed; a payload with a `pages` array is normalized page
by page and then sorted by page number; a bare array is normalized in index
order; anything else falls back to the flat text. If no page was produced,
exactly one page is created from the full flat text. -/
def processJobResult (jobId : Nat) (jsonFetch : Except String JsonData)
    (parseJson : String → Option JsonData) (flatText : String)
    (jobDetails : JobDetails) : JobResult :=
  let parsed :=
    match jsonFetch with
    | .error _ => (cleanParsedText flatText, ([] : List NormPage))
    | .ok data0 =>
      let parsedData :=
        match data0 with
        | .str s =>
          match parseJson (stripOuterCodeFence s) with
          | some d => d
          | none => .str s
        | d => d
      match parsedData with
      | .pagesObj pages =>
        let pp := pages.enum.filterMap
          (fun ip : Nat × RawJsonPage => processStructuredPage parseJson ip.1 ip.2)
        let sorted := pp.mergeSort (fun a b => a.pageNumber ≤ b.pageNumber)
        (String.intercalate "\n\n" (sorted.map (fun p : NormPage => p.text)), sorted)
      | .arr pages =>
        let pp := pages.enum.filterMap
          (fun ip : Nat × RawJsonPage => processArrayPage ip.1 ip.2)
        (String.intercalate "\n\n" (pp.map (fun p : NormPage => p.text)), pp)
      | _ => (cleanParsedText flatText, [])
  let finalPages :=
    if parsed.2.length = 0 then
      [{ pageNumber := 1
         text := parsed.1
         markdown := parsed.1
         summary := "No summary available"
         wordCount := countWords parsed.1
         characterCount := parsed.1.length : NormPage }]
    else parsed.2
  { success := true
    jobId := jobId
    text := parsed.1
    pages := finalPages
    status := "SUCCESS"
    pageCount := jsOrNat jobDetails.page_count finalPages.length }

/-! ## Parsing orchestrator (src/unnamed/part_009, ocr controller) -/

/-- The options handed to `mistralService.processDocument`. The annotation
payloads are opaque JSON blobs; `none` models absent/null (JS-falsy), any
`some` models a requested (truthy) annotation object. -/
structure MistralOptions where
  includeImageBase64 : Bool
  extractHeader : Bool
  extractFooter : Bool
  tableFormat : Option String
  documentAnnotation : Option String
  bboxAnnotation : Option String
deriving DecidableEq, Repr

/-- Pre-submission safety check (lines 501-506): with the mistral parser, a
requested (truthy) `document_annotation` and a detected page count above 8,
the annotation is dropped before submission ("Mistral document_annotation is
limited to 8 pages. Disabling annotation to prevent 503 error."). -/
def mistralAnnotationSafetyCheck (parser : String)
    ( parsedDocAnnotation : Option String) (detectedPageCount : Nat) :
    Option String :=
  if parser = "mistral" ∧ parsedDocAnnotation.isSome ∧ detectedPageCount > 8 then
    none
  else parsedDocAnnotation

/-- Outcome of the synchronous part of `processDocument` (lines 477-556):
either the parser choice is rejected, or a Document is created in
`processing` state and the background task is dispatched with the
(safety-checked) options. -/
inductive SubmitResult where
  | invalidParser
  | accepted (doc : Document) (options : MistralOptions)
deriving DecidableEq, Repr

/-- The synchronous submission slice of `processDocument`: validate the
parser choice, run the page-count safety check, create the document with
`parsingStatus = 'processing'` and placeholder text, and dispatch the
background task (not awaited) with the final options. -/
def submitForParsing (parser : String) (includeImageBase64 extractHeader extractFooter : Bool)
    (tableFormat documentAnnotation bboxAnnotation : Option String)
    (detectedPageCount : Nat) (baseDoc : Document) : SubmitResult :=
  if parser ≠ "mistral" ∧ parser ≠ "llama" then .invalidParser
  else
    let finalDocAnnotation :=
      mistralAnnotationSafetyCheck parser documentAnnotation detectedPageCount
    .accepted
      { baseDoc with parsingStatus := .processing, originalText := "Processing..." }
      { includeImageBase64 := includeImageBase64
        extractHeader := extractHeader
        extractFooter := extractFooter
        tableFormat := tableFormat
        documentAnnotation := finalDocAnnotation
        bboxAnnotation := bboxAnnotation }

/-- One page of a parser backend response as consumed by the
`pagesData` mapping of `backgroundProcessDocument` (lines 637-655). -/
structure OcrPage where
  page_number : Option Nat
  text : Option String
  markdown : String
  tables : List String
  images : List String
  header : Option String
  footer : Option String
  confidence : Option Nat
  processing_time : Option Nat
  summary : Option String
deriving DecidableEq, Repr

/-- A mistral OCR response `{pages, model, usage, documentAnnotation}`. -/
structure MistralResult where
  pages : List OcrPage
  model : String
  usage : Option String
  documentAnnotation : Option String
deriving DecidableEq, Repr

/-- Outcome of one `mistralService.processDocument` call. -/
inductive MistralOutcome where
  | ok (r : MistralResult)
  | err (message : String)
deriving DecidableEq, Repr

/-- The mistral call with its feature-degradation retry (lines 590-624): if
the first call throws and an annotation had been requested, retry exactly
once with both annotations nulled; otherwise the error propagates. Returns
the final outcome together with the option sets actually submitted. -/
def runMistralWithRetry (options : MistralOptions)
    (callMistral : MistralOptions → MistralOutcome) :
    MistralOutcome × List MistralOptions :=
  match callMistral options with
  | .ok r => (.ok r, [options])
  | .err e =>
    if options.documentAnnotation.isSome ∨ options.bboxAnnotation.isSome then
      let retryOptions := { options with
        documentAnnotation := none, bboxAnnotation := none }
      (callMistral retryOptions, [options, retryOptions])
    else (.err e, [options])

/-- One entry of the `pagesData` array built on success (lines 637-655):
`pageNumber: page.page_number || index + 1`, `text: page.text || page.markdown || ''`,
computed word/character counts. -/
def normalizeOcrPage (index : Nat) (page : OcrPage) : PageData :=
  let pageText := jsOrString page.text (jsOrString (some page.markdown) "")
  { pageNumber := jsOrNat page.page_number (index + 1)
    text := pageText
    markdown := jsOrString (some page.markdown) pageText
    tables := page.tables
    images := page.images
    header := page.header
    footer := page.footer
    confidence := page.confidence
    wordCount := countWords pageText
    characterCount := pageText.length
    summary := match page.summary with
               | some s => if s = "" then none else some s
               | none => none }

/-- Parser metadata recorded on success. A `none` field models a JS
`undefined` value, which mongoose drops from the `$set`, leaving the stored
field unchanged. -/
structure ParserMetadata where
  model : String
  jobId : Option Nat
  processingTime : Option Nat
  usage : Option String
deriving DecidableEq, Repr

/-- The success-path `findByIdAndUpdate` (lines 657-671): persist the full
text, page count, normalized `pagesData`, table/image aggregates, set
`parsingStatus = 'completed'` and record the parser metadata. -/
def applySuccessUpdate (doc : Document) (pages : List OcrPage)
    (fullText : String) (pm : ParserMetadata)
    ( documentAnnotation : Option String) : Document :=
  { doc with
    originalText := fullText
    pages := pages.length
    pagesData := pages.enum.map (fun ip => normalizeOcrPage ip.1 ip.2)
    tables := (pages.map (fun p => p.tables)).flatten
    images := (pages.map (fun p => p.images)).flatten
    parsingStatus := .completed
    metadata := { doc.metadata with
      model := some pm.model
      jobId := match pm.jobId with
               | some j => some j
               | none => doc.metadata.jobId
      pageCount := some pages.length
      processingTime := match pm.processingTime with
                        | some t => some t
                        | none => doc.metadata.processingTime
      usage := match pm.usage with
               | some u => some u
               | none => doc.metadata.usage
      documentAnnotation := match documentAnnotation with
                            | some a => some a
                            | none => doc.metadata.documentAnnotation } }

/-- The failure-path `findByIdAndUpdate` (lines 676-679): only
`parsingStatus` and `metadata.error` are written. -/
def applyFailureUpdate (doc : Document) (message : String) : Document :=
  { doc with
    parsingStatus := .failed
    metadata := { doc.metadata with error := some message } }

/-- A page of the uniform llama `JobResult` reinterpreted by the duck-typed
`pagesData` mapping: the normalized page carries `pageNumber`/`text`/
`markdown`/`summary` fields, so `page.page_number` is absent and
`page.tables`/`page.images` default to empty. -/
def normPageToOcr (p : NormPage) : OcrPage :=
  { page_number := none
    text := some p.text
    markdown := p.markdown
    tables := []
    images := []
    header := none
    footer := none
    confidence := none
    processing_time := none
    summary := some p.summary }

/-- Model of `backgroundProcessDocument` (lines 572-682), given the outcomes of the
external parser calls: the llama branch awaits one `parseDocument` outcome;
the mistral branch runs the call with its single feature-degradation retry.
On success the document is completed with the normalized pages; on any
failure the catch writes `parsingStatus = 'failed'` and the error message.
Returns the updated document and the mistral option sets submitted. -/
def backgroundProcessDocument (doc : Document) (parser : String)
    (options : MistralOptions) (callMistral : MistralOptions → MistralOutcome)
    (llamaParse : Except String JobResult) : Document × List MistralOptions :=
  if parser = "llama" then
    match llamaParse with
    | .ok r =>
      let ocrPages := r.pages.map normPageToOcr
      (applySuccessUpdate doc ocrPages r.text
        { model := "llamaindex-parser-gen"
          jobId := some r.jobId
          processingTime := none
          usage := none } none, [])
    | .error e => (applyFailureUpdate doc e, [])
  else
    match runMistralWithRetry options callMistral with
    | (.ok r, calls) =>
      (applySuccessUpdate doc r.pages
        (String.intercalate "\n\n" (r.pages.map (fun p => p.markdown)))
        { model := r.model
          jobId := none
          processingTime := none
          usage := r.usage } r.documentAnnotation, calls)
    | (.err e, calls) => (applyFailureUpdate doc e, calls)

/-! ## Concrete fixtures used by witnesses and counterexamples -/

/-- A one-line page with the given page number. -/
def fixturePage (k : Nat) : PageData :=
  { pageNumber := k, text := "page text", markdown := "page text",
    tables := [], images := [], header := none, footer := none,
    confidence := none, wordCount := 2, characterCount := 9, summary := none }

def fixtureMeta : DocMetadata :=
  { parser := some "mistral", bookName := none, authorName := none,
    category := none, model := none, jobId := none, pageCount := none,
    processingTime := none, usage := none, documentAnnotation := none,
    error := none, storageType := none }

/-- A parsed document with `n` pages and the given embedding checkpoint. -/
def fixtureDoc (n : Nat) (progress : Option EmbeddingProgress) : Document :=
  { id := 1, userId := 2, fileName := "book.pdf", originalText := "",
    editedText := none, pages := n,
    pagesData := (List.range n).map (fun k => fixturePage (k + 1)),
    tables := [], images := [], parsingStatus := .completed,
    embeddingStatus := .processing, embeddingProgress := progress,
    metadata := fixtureMeta }

/-- An order-preserving embedding-provider oracle: one vector per input. -/
def fixtureEmbed : List String → List (List Int) :=
  fun inputs => inputs.map (fun _ => [0])

/-- A persistence environment in which no insert fails for a reason other
than the unique index. -/
def fixtureNoFailure : VectorRecord → Option String := fun _ => none

/-- A document table holding one not-yet-embedded document under id 1. -/
def fixtureLookup : Nat → Option Document :=
  fun i => if i = 1 then some (fixtureDoc 3 none) else none

/-- A document whose embedding has already completed. -/
def fixtureDocDone : Document :=
  { fixtureDoc 3 none with embeddingStatus := .completed }

/-- A document table holding the completed document under id 1. -/
def fixtureLookupDone : Nat → Option Document :=
  fun i => if i = 1 then some fixtureDocDone else none

/-- Submission options requesting a document annotation. -/
def fixtureOptions : MistralOptions :=
  { includeImageBase64 := false, extractHeader := false, extractFooter := false,
    tableFormat := none, documentAnnotation := some "schema", bboxAnnotation := none }

/-- A mistral backend that fails every call with the same message. -/
def fixtureCallFail : MistralOptions → MistralOutcome :=
  fun _ => .err "Parsing job timed out"

/-- A three-page mistral OCR response. -/
def fixtureMistralResult : MistralResult :=
  { pages := [
      { page_number := some 1, text := none, markdown := "first",
        tables := [], images := [], header := none, footer := none,
        confidence := none, processing_time := none, summary := none },
      { page_number := some 2, text := none, markdown := "second",
        tables := [], images := [], header := none, footer := none,
        confidence := none, processing_time := none, summary := none },
      { page_number := some 3, text := none, markdown := "third",
        tables := [], images := [], header := none, footer := none,
        confidence := none, processing_time := none, summary := none }]
    model := "mistral-ocr-latest", usage := none, documentAnnotation := none }

/-- A mistral backend that succeeds on every call. -/
def fixtureCallOk : MistralOptions → MistralOutcome :=
  fun _ => .ok fixtureMistralResult

/-- A job backend that never leaves the PENDING state. -/
def fixturePoll : Nat → JobStatusResponse :=
  fun _ => ⟨"PENDING", none, none⟩

/-- A `JSON.parse` oracle that always throws. -/
def fixtureParseFail : String → Option JsonData := fun _ => none

def fixtureDetails : JobDetails :=
  { file_size := none, page_count := none, processing_time := none,
    credits_used := none }

/-! ## Helper lemmas about the embedding pipeline -/

theorem recKey_mkVectorRecord (doc : Document) (p : PageData) (v : List Int) :
    recKey (mkVectorRecord doc p v) = (doc.id, p.pageNumber, 0) := rfl

theorem storeKeys_append (a b : List VectorRecord) :
    storeKeys (a ++ b) = storeKeys a ++ storeKeys b := List.map_append _ _ _

theorem storeBatchMongo_keys_mono (f : VectorRecord → Option String) (doc : Document) :
    ∀ (pages : List PageData) (embs : List (List Int)) (store : List VectorRecord)
      (k : Nat × Nat × Nat), k ∈ storeKeys store →
      k ∈ storeKeys (storeBatchMongo f doc pages embs store).1 := by
  intro pages
  induction pages with
  | nil => intro embs store k hk; simpa [storeBatchMongo] using hk
  | cons page rest ih =>
    intro embs store k hk
    by_cases hmem : recKey (mkVectorRecord doc page (embs.headD [])) ∈ storeKeys store
    · simp only [storeBatchMongo, insertVectorRecord, if_pos hmem]
      exact ih _ _ _ hk
    · cases hf : f (mkVectorRecord doc page (embs.headD [])) with
      | some msg =>
        simp only [storeBatchMongo, insertVectorRecord, if_neg hmem, hf]
        exact ih _ _ _ hk
      | none =>
        simp only [storeBatchMongo, insertVectorRecord, if_neg hmem, hf]
        refine ih _ _ _ ?_
        rw [storeKeys_append]
        exact List.mem_append_left _ hk

theorem storeBatchMongo_unique (f : VectorRecord → Option String) (doc : Document) :
    ∀ (pages : List PageData) (embs : List (List Int)) (store : List VectorRecord),
      UniqueKeys store → UniqueKeys (storeBatchMongo f doc pages embs store).1 := by
  intro pages
  induction pages with
  | nil => intro embs store h; simpa [storeBatchMongo] using h
  | cons page rest ih =>
    intro embs store h
    by_cases hmem : recKey (mkVectorRecord doc page (embs.headD [])) ∈ storeKeys store
    · simp only [storeBatchMongo, insertVectorRecord, if_pos hmem]
      exact ih _ _ h
    · cases hf : f (mkVectorRecord doc page (embs.headD [])) with
      | some msg =>
        simp only [storeBatchMongo, insertVectorRecord, if_neg hmem, hf]
        exact ih _ _ h
      | none =>
        simp only [storeBatchMongo, insertVectorRecord, if_neg hmem, hf]
        refine ih _ _ ?_
        unfold UniqueKeys at h ⊢
        rw [storeKeys_append]
        rw [List.nodup_append]
        refine ⟨h, List.nodup_singleton _, fun k hk hk1 => hmem ?_⟩
        simp only [storeKeys, List.map_cons, List.map_nil, List.mem_singleton] at hk1
        rw [← hk1]
        exact hk

theorem storeBatchMongo_covers (f : VectorRecord → Option String) (doc : Document) :
    ∀ (pages : List PageData) (embs : List (List Int)) (store : List VectorRecord)
      (p : PageData), p ∈ pages → (∀ v, f (mkVectorRecord doc p v) = none) →
      (doc.id, p.pageNumber, 0) ∈ storeKeys (storeBatchMongo f doc pages embs store).1 := by
  intro pages
  induction pages with
  | nil => intro embs store p hp; exact absurd hp (List.not_mem_nil p)
  | cons page rest ih =>
    intro embs store p hp hf
    rcases List.mem_cons.mp hp with heq | hrest
    · subst heq
      by_cases hmem : recKey (mkVectorRecord doc p (embs.headD [])) ∈ storeKeys store
      · simp only [storeBatchMongo, insertVectorRecord, if_pos hmem]
        refine storeBatchMongo_keys_mono f doc rest embs.tail store _ ?_
        simpa [recKey_mkVectorRecord] using hmem
      · simp only [storeBatchMongo, insertVectorRecord, if_neg hmem, hf (embs.headD [])]
        refine storeBatchMongo_keys_mono f doc rest embs.tail _ _ ?_
        rw [storeKeys_append]
        refine List.mem_append_right _ ?_
        simp [storeKeys, recKey_mkVectorRecord]
    · by_cases hmem : recKey (mkVectorRecord doc page (embs.headD [])) ∈ storeKeys store
      · simp only [storeBatchMongo, insertVectorRecord, if_pos hmem]
        exact ih _ _ _ hrest hf
      · cases hfp : f (mkVectorRecord doc page (embs.headD [])) with
        | some msg =>
          simp only [storeBatchMongo, insertVectorRecord, if_neg hmem, hfp]
          exact ih _ _ _ hrest hf
        | none =>
          simp only [storeBatchMongo, insertVectorRecord, if_neg hmem, hfp]
          exact ih _ _ _ hrest hf

theorem embeddingLoopGo_succ_ne (ce : List String → List (List Int))
    (f : VectorRecord → Option String) (n : Nat) (doc : Document)
    (inputs : List String) (pagesL : List PageData) (i : Nat)
    (store : List VectorRecord) (h : inputs ≠ []) :
    embeddingLoopGo ce f (n + 1) doc inputs pagesL i store =
      let currentBatchInputs := inputs.take BATCH_SIZE
      let stored := storeBatchMongo f doc (pagesL.take BATCH_SIZE)
        (ce currentBatchInputs) store
      let doc' := { doc with
        embeddingProgress := some ⟨i + currentBatchInputs.length, 0⟩ }
      let rest := embeddingLoopGo ce f n doc' (inputs.drop BATCH_SIZE)
        (pagesL.drop BATCH_SIZE) (i + currentBatchInputs.length) stored.1
      ⟨rest.doc, rest.store, doc' :: rest.saves,
        currentBatchInputs :: rest.calls, stored.2 ++ rest.logs⟩ := by
  simp [embeddingLoopGo, h]

theorem embeddingLoopGo_drop_len_le (inputs : List String) (n : Nat)
    (h : inputs ≠ []) (hlen : inputs.length ≤ n + 1) :
    (inputs.drop BATCH_SIZE).length ≤ n := by
  simp only [List.length_drop]
  have : inputs.length ≠ 0 := fun hl => h (List.eq_nil_of_length_eq_zero hl)
  simp only [BATCH_SIZE]
  omega

theorem embeddingLoopGo_batch_pos (inputs : List String) (h : inputs ≠ []) :
    0 < (inputs.take BATCH_SIZE).length := by
  simp only [List.length_take]
  have : inputs.length ≠ 0 := fun hl => h (List.eq_nil_of_length_eq_zero hl)
  simp only [BATCH_SIZE]
  omega

theorem embeddingLoopGo_store_mono (ce : List String → List (List Int))
    (f : VectorRecord → Option String) :
    ∀ (n : Nat) (inputs : List String), inputs.length ≤ n →
    ∀ (pagesL : List PageData) (doc : Document) (i : Nat)
      (store : List VectorRecord) (k : Nat × Nat × Nat),
    k ∈ storeKeys store →
    k ∈ storeKeys (embeddingLoopGo ce f n doc inputs pagesL i store).store := by
  intro n
  induction n with
  | zero =>
    intro inputs hlen pagesL doc i store k hk
    simpa [embeddingLoopGo] using hk
  | succ n ih =>
    intro inputs hlen pagesL doc i store k hk
    by_cases h : inputs = []
    · subst h; simpa [embeddingLoopGo] using hk
    · rw [embeddingLoopGo_succ_ne ce f n doc inputs pagesL i store h]
      exact ih _ (embeddingLoopGo_drop_len_le inputs n h hlen) _ _ _ _ _
        (storeBatchMongo_keys_mono f doc _ _ _ _ hk)

theorem embeddingLoopGo_store_unique (ce : List String → List (List Int))
    (f : VectorRecord → Option String) :
    ∀ (n : Nat) (inputs : List String), inputs.length ≤ n →
    ∀ (pagesL : List PageData) (doc : Document) (i : Nat)
      (store : List VectorRecord),
    UniqueKeys store →
    UniqueKeys (embeddingLoopGo ce f n doc inputs pagesL i store).store := by
  intro n
  induction n with
  | zero =>
    intro inputs hlen pagesL doc i store hu
    simpa [embeddingLoopGo] using hu
  | succ n ih =>
    intro inputs hlen pagesL doc i store hu
    by_cases h : inputs = []
    · subst h; simpa [embeddingLoopGo] using hu
    · rw [embeddingLoopGo_succ_ne ce f n doc inputs pagesL i store h]
      exact ih _ (embeddingLoopGo_drop_len_le inputs n h hlen) _ _ _ _
        (storeBatchMongo_unique f doc _ _ _ hu)

theorem embeddingLoopGo_covers (ce : List String → List (List Int))
    (f : VectorRecord → Option String) :
    ∀ (n : Nat) (inputs : List String), inputs.length ≤ n →
    ∀ (pagesL : List PageData) (doc : Document) (i : Nat)
      (store : List VectorRecord) (p : PageData),
    inputs.length = pagesL.length →
    p ∈ pagesL →
    (∀ v, f (mkVectorRecord doc p v) = none) →
    (doc.id, p.pageNumber, 0) ∈
      storeKeys (embeddingLoopGo ce f n doc inputs pagesL i store).store := by
  intro n
  induction n with
  | zero =>
    intro inputs hlen pagesL doc i store p hl hp _
    have h0 : inputs = [] := List.eq_nil_of_length_eq_zero (Nat.le_zero.mp hlen)
    rw [h0] at hl
    simp only [List.length_nil] at hl
    have : pagesL = [] := List.eq_nil_of_length_eq_zero hl.symm
    subst this
    exact absurd hp (List.not_mem_nil p)
  | succ n ih =>
    intro inputs hlen pagesL doc i store p hl hp hf
    by_cases h : inputs = []
    · rw [h] at hl
      simp only [List.length_nil] at hl
      have : pagesL = [] := List.eq_nil_of_length_eq_zero hl.symm
      subst this
      exact absurd hp (List.not_mem_nil p)
    · rw [embeddingLoopGo_succ_ne ce f n doc inputs pagesL i store h]
      have hp' := hp
      rw [← List.take_append_drop BATCH_SIZE pagesL] at hp'
      rcases List.mem_append.mp hp' with htake | hdrop
      · refine embeddingLoopGo_store_mono ce f n _
          (embeddingLoopGo_drop_len_le inputs n h hlen) _ _ _ _ _ ?_
        exact storeBatchMongo_covers f doc _ _ _ p htake hf
      · refine ih _ (embeddingLoopGo_drop_len_le inputs n h hlen) _ _ _ _ _ ?_ hdrop hf
        simp only [List.length_drop, hl]

theorem embeddingLoopGo_saves_mem (ce : List String → List (List Int))
    (f : VectorRecord → Option String) :
    ∀ (n : Nat) (inputs : List String), inputs.length ≤ n →
    ∀ (pagesL : List PageData) (doc : Document) (i : Nat)
      (store : List VectorRecord) (d : Document),
    d ∈ (embeddingLoopGo ce f n doc inputs pagesL i store).saves →
    d.embeddingStatus = doc.embeddingStatus ∧
      ∃ cp, d.embeddingProgress = some ⟨cp, 0⟩ ∧ i < cp := by
  intro n
  induction n with
  | zero =>
    intro inputs hlen pagesL doc i store d hd
    simp [embeddingLoopGo] at hd
  | succ n ih =>
    intro inputs hlen pagesL doc i store d hd
    by_cases h : inputs = []
    · subst h; simp [embeddingLoopGo] at hd
    · rw [embeddingLoopGo_succ_ne ce f n doc inputs pagesL i store h] at hd
      rcases List.mem_cons.mp hd with heq | hrest
      · subst heq
        refine ⟨rfl, i + (inputs.take BATCH_SIZE).length, rfl, ?_⟩
        have := embeddingLoopGo_batch_pos inputs h
        omega
      · have := ih _ (embeddingLoopGo_drop_len_le inputs n h hlen) _ _ _ _ _ hrest
        refine ⟨this.1, ?_⟩
        obtain ⟨cp, hcp, hlt⟩ := this.2
        refine ⟨cp, hcp, ?_⟩
        have := embeddingLoopGo_batch_pos inputs h
        omega

theorem embeddingLoopGo_trace_chain (ce : List String → List (List Int))
    (f : VectorRecord → Option String) :
    ∀ (n : Nat) (inputs : List String), inputs.length ≤ n →
    ∀ (pagesL : List PageData) (doc : Document) (i : Nat)
      (store : List VectorRecord),
    List.Chain' (· ≤ ·)
      ((embeddingLoopGo ce f n doc inputs pagesL i store).saves.map
        (fun d => (d.embeddingProgress.getD ⟨0, 0⟩).currentPage)) := by
  intro n
  induction n with
  | zero =>
    intro inputs hlen pagesL doc i store
    simp [embeddingLoopGo]
  | succ n ih =>
    intro inputs hlen pagesL doc i store
    by_cases h : inputs = []
    · subst h; simp [embeddingLoopGo]
    · rw [embeddingLoopGo_succ_ne ce f n doc inputs pagesL i store h]
      simp only [List.map_cons]
      rw [List.chain'_cons']
      refine ⟨?_, ih _ (embeddingLoopGo_drop_len_le inputs n h hlen) _ _ _ _⟩
      intro y hy
      have hy' := List.mem_of_mem_head? hy
      rcases List.mem_map.mp hy' with ⟨d, hd, hproj⟩
      have := (embeddingLoopGo_saves_mem ce f n _
        (embeddingLoopGo_drop_len_le inputs n h hlen) _ _ _ _ _ hd).2
      obtain ⟨cp, hcp, hlt⟩ := this
      rw [← hproj, hcp]
      simp only [Option.getD_some]
      omega

theorem embeddingLoopGo_calls_len (ce : List String → List (List Int))
    (f : VectorRecord → Option String) :
    ∀ (n : Nat) (inputs : List String), inputs.length ≤ n →
    ∀ (pagesL : List PageData) (doc : Document) (i : Nat)
      (store : List VectorRecord),
    (embeddingLoopGo ce f n doc inputs pagesL i store).calls.length =
      (inputs.length + (BATCH_SIZE - 1)) / BATCH_SIZE := by
  intro n
  induction n with
  | zero =>
    intro inputs hlen pagesL doc i store
    have : inputs = [] := List.eq_nil_of_length_eq_zero (Nat.le_zero.mp hlen)
    subst this
    simp [embeddingLoopGo, BATCH_SIZE]
  | succ n ih =>
    intro inputs hlen pagesL doc i store
    by_cases h : inputs = []
    · subst h; simp [embeddingLoopGo, BATCH_SIZE]
    · rw [embeddingLoopGo_succ_ne ce f n doc inputs pagesL i store h]
      simp only [List.length_cons]
      rw [ih _ (embeddingLoopGo_drop_len_le inputs n h hlen)]
      simp only [List.length_drop, BATCH_SIZE]
      have : inputs.length ≠ 0 := fun hl => h (List.eq_nil_of_length_eq_zero hl)
      omega

theorem embeddingLoopGo_calls_le (ce : List String → List (List Int))
    (f : VectorRecord → Option String) :
    ∀ (n : Nat) (inputs : List String), inputs.length ≤ n →
    ∀ (pagesL : List PageData) (doc : Document) (i : Nat)
      (store : List VectorRecord) (c : List String),
    c ∈ (embeddingLoopGo ce f n doc inputs pagesL i store).calls →
    c.length ≤ BATCH_SIZE := by
  intro n
  induction n with
  | zero =>
    intro inputs hlen pagesL doc i store c hc
    simp [embeddingLoopGo] at hc
  | succ n ih =>
    intro inputs hlen pagesL doc i store c hc
    by_cases h : inputs = []
    · subst h; simp [embeddingLoopGo] at hc
    · rw [embeddingLoopGo_succ_ne ce f n doc inputs pagesL i store h] at hc
      rcases List.mem_cons.mp hc with heq | hrest
      · subst heq
        simp only [List.length_take]
        omega
      · exact ih _ (embeddingLoopGo_drop_len_le inputs n h hlen) _ _ _ _ _ hrest

theorem embeddingLoopGo_calls_getD (ce : List String → List (List Int))
    (f : VectorRecord → Option String) :
    ∀ (n : Nat) (inputs : List String), inputs.length ≤ n →
    ∀ (pagesL : List PageData) (doc : Document) (i : Nat)
      (store : List VectorRecord) (k : Nat),
    (embeddingLoopGo ce f n doc inputs pagesL i store).calls.getD k [] =
      (inputs.drop (BATCH_SIZE * k)).take BATCH_SIZE := by
  intro n
  induction n with
  | zero =>
    intro inputs hlen pagesL doc i store k
    have : inputs = [] := List.eq_nil_of_length_eq_zero (Nat.le_zero.mp hlen)
    subst this
    simp [embeddingLoopGo]
  | succ n ih =>
    intro inputs hlen pagesL doc i store k
    by_cases h : inputs = []
    · subst h; simp [embeddingLoopGo]
    · rw [embeddingLoopGo_succ_ne ce f n doc inputs pagesL i store h]
      cases k with
      | zero => simp
      | succ k =>
        simp only [List.getD_cons_succ]
        rw [ih _ (embeddingLoopGo_drop_len_le inputs n h hlen), List.drop_drop]
        ring_nf

theorem processDocumentEmbeddings_parts (ce : List String → List (List Int))
    (f : VectorRecord → Option String) (doc0 : Document)
    (store0 : List VectorRecord) :
    ∃ doc2 : Document,
      doc2.pagesData = doc0.pagesData ∧
      doc2.id = doc0.id ∧
      doc2.metadata = doc0.metadata ∧
      doc2.embeddingStatus = EmbeddingStatus.processing ∧
      composeEmbeddingInput doc2 = composeEmbeddingInput doc0 ∧
      mkVectorRecord doc2 = mkVectorRecord doc0 ∧
      doc2.embeddingProgress =
        (if doc0.embeddingProgress = none then some ⟨0, 0⟩
         else doc0.embeddingProgress) ∧
      processDocumentEmbeddings ce f doc0 store0 =
        (let r := embeddingLoop ce f doc2
          (doc2.pagesData.map (composeEmbeddingInput doc2)) doc2.pagesData 0 store0
         let docF := { r.doc with
           embeddingStatus := .completed
           embeddingProgress := some ⟨0, 0⟩
           metadata := { r.doc.metadata with storageType := some "mongo" } }
         ⟨docF, r.store, doc2 :: (r.saves ++ [docF]), r.calls, r.logs⟩) := by
  by_cases h : doc0.embeddingProgress = none
  · refine ⟨{ doc0 with
        embeddingStatus := EmbeddingStatus.processing
        embeddingProgress := some ⟨0, 0⟩ },
      rfl, rfl, rfl, rfl, rfl, rfl, by simp [h], ?_⟩
    simp [processDocumentEmbeddings, h]
  · refine ⟨{ doc0 with embeddingStatus := EmbeddingStatus.processing },
      rfl, rfl, rfl, rfl, rfl, rfl, by simp [h], ?_⟩
    simp [processDocumentEmbeddings, h]

/-! ## Helper lemmas about the job monitor -/

theorem monitorJobLoop_timeout (poll : Nat → JobStatusResponse) :
    ∀ (fuel maxAttempts attempts : Nat), maxAttempts - attempts = fuel →
    attempts ≤ maxAttempts →
    (∀ j, attempts ≤ j → j < maxAttempts → NonTerminal (poll j)) →
    monitorJobLoop poll maxAttempts attempts =
      ⟨.error "Parsing job timed out", maxAttempts,
        List.replicate maxAttempts POLL_INTERVAL_MS⟩ := by
  intro fuel
  induction fuel with
  | zero =>
    intro maxAttempts attempts hfuel hle _
    have he : attempts = maxAttempts := by omega
    subst he
    rw [monitorJobLoop]
    simp
  | succ fuel ih =>
    intro maxAttempts attempts hfuel hle hnt
    have hlt : attempts < maxAttempts := by omega
    obtain ⟨hs, he, hf⟩ := hnt attempts le_rfl hlt
    rw [monitorJobLoop]
    simp only [hlt, if_true, hs, he, hf, or_self, if_false]
    exact ih maxAttempts (attempts + 1) (by omega) (by omega)
      (fun j hj1 hj2 => hnt j (by omega) hj2)

theorem monitorJobLoop_success (poll : Nat → JobStatusResponse) :
    ∀ (fuel maxAttempts attempts k : Nat), k - attempts = fuel →
    attempts ≤ k → k < maxAttempts →
    (∀ j, attempts ≤ j → j < k → NonTerminal (poll j)) →
    (poll k).status = "SUCCESS" →
    monitorJobLoop poll maxAttempts attempts =
      ⟨.ok (poll k), k + 1, List.replicate (k + 1) POLL_INTERVAL_MS⟩ := by
  intro fuel
  induction fuel with
  | zero =>
    intro maxAttempts attempts k hfuel hle hlt _ hsucc
    have he : attempts = k := by omega
    subst he
    rw [monitorJobLoop]
    simp [Nat.lt_of_le_of_lt (le_refl attempts) hlt, hsucc]
  | succ fuel ih =>
    intro maxAttempts attempts k hfuel hle hlt hnt hsucc
    have hlt' : attempts < k := by omega
    obtain ⟨hs, he, hf⟩ := hnt attempts le_rfl hlt'
    rw [monitorJobLoop]
    simp only [Nat.lt_trans hlt' hlt, if_true, hs, he, hf, or_self, if_false]
    exact ih maxAttempts (attempts + 1) k (by omega) (by omega) hlt
      (fun j hj1 hj2 => hnt j (by omega) hj2) hsucc

theorem monitorJobLoop_backend_error (poll : Nat → JobStatusResponse) :
    ∀ (fuel maxAttempts attempts k : Nat), k - attempts = fuel →
    attempts ≤ k → k < maxAttempts →
    (∀ j, attempts ≤ j → j < k → NonTerminal (poll j)) →
    ((poll k).status = "ERROR" ∨ (poll k).status = "FAILED") →
    monitorJobLoop poll maxAttempts attempts =
      ⟨.error (backendFailureMessage (poll k)), k + 1,
        List.replicate (k + 1) POLL_INTERVAL_MS⟩ := by
  intro fuel
  induction fuel with
  | zero =>
    intro maxAttempts attempts k hfuel hle hlt _ herr
    have he : attempts = k := by omega
    subst he
    have hs : (poll attempts).status ≠ "SUCCESS" := by
      rcases herr with h | h <;> simp [h]
    rw [monitorJobLoop]
    simp [Nat.lt_of_le_of_lt (le_refl attempts) hlt, hs, herr]
  | succ fuel ih =>
    intro maxAttempts attempts k hfuel hle hlt hnt herr
    have hlt' : attempts < k := by omega
    obtain ⟨hs, he, hf⟩ := hnt attempts le_rfl hlt'
    rw [monitorJobLoop]
    simp only [Nat.lt_trans hlt' hlt, if_true, hs, he, hf, or_self, if_false]
    exact ih maxAttempts (attempts + 1) k (by omega) (by omega) hlt
      (fun j hj1 hj2 => hnt j (by omega) hj2) herr

/-! ## Claim theorems -/

/-- C1 (counterexample): the claim that `embeddingProgress.currentPage` is
monotonically non-decreasing across the persisted saves made while
`embeddingStatus = processing`, including a run that resumes after an
interruption, is false. A fresh run over a 41-page document persists the
checkpoints 0, 20, 40, 41 while processing, so an interruption during the
third batch leaves the durable checkpoint `{currentPage: 40}`; the resumed
run then persists 40, 20, 40, 41 — its second save (20) is smaller than its
first (40), because the loop always restarts from index 0. -/
theorem embedding_checkpoint_nonmonotonic_on_resume :
    currentPageTrace (processDocumentEmbeddings fixtureEmbed fixtureNoFailure
      (fixtureDoc 41 (some ⟨0, 0⟩)) []) = [0, 20, 40, 41] ∧
    currentPageTrace (processDocumentEmbeddings fixtureEmbed fixtureNoFailure
      (fixtureDoc 41 (some ⟨40, 0⟩)) []) = [40, 20, 40, 41] ∧
    ¬ List.Chain' (· ≤ ·)
      (currentPageTrace (processDocumentEmbeddings fixtureEmbed fixtureNoFailure
        (fixtureDoc 41 (some ⟨40, 0⟩)) [])) := by
  refine ⟨by decide, by decide, ?_⟩
  intro hchain
  have h1 : currentPageTrace (processDocumentEmbeddings fixtureEmbed fixtureNoFailure
      (fixtureDoc 41 (some ⟨40, 0⟩)) []) = [40, 20, 40, 41] := by decide
  rw [h1] at hchain
  have h2 : (40 : Nat) ≤ 20 := (List.chain'_cons.mp hchain).1
  omega

/-- C1 (amended): `embeddingProgress` is mutated only by the embedding
pipeline (`stopEmbedding` leaves it unchanged); within a single run started
from a zero (or absent) checkpoint the persisted `currentPage` values made
while `embeddingStatus = processing` are monotonically non-decreasing; every
intermediate checkpoint save is strictly positive; and the progress is reset
to `{0,0}` exactly at the final save, at which point
`embeddingStatus = completed`. (A resumed run restarts batching from page 0,
so monotonicity does not extend across an interruption.) -/
theorem embedding_checkpoint_run (ce : List String → List (List Int))
    (f : VectorRecord → Option String) (doc0 : Document)
    (store0 : List VectorRecord)
    (hfresh : doc0.embeddingProgress = none ∨
      doc0.embeddingProgress = some ⟨0, 0⟩) :
    List.Chain' (· ≤ ·)
      (currentPageTrace (processDocumentEmbeddings ce f doc0 store0)) ∧
    (processDocumentEmbeddings ce f doc0 store0).saves.getLast? =
      some (processDocumentEmbeddings ce f doc0 store0).doc ∧
    (processDocumentEmbeddings ce f doc0 store0).doc.embeddingStatus =
      EmbeddingStatus.completed ∧
    (processDocumentEmbeddings ce f doc0 store0).doc.embeddingProgress =
      some ⟨0, 0⟩ ∧
    (∀ d ∈ (processDocumentEmbeddings ce f doc0 store0).saves.dropLast,
      d.embeddingStatus = EmbeddingStatus.processing) ∧
    (∀ d ∈ (processDocumentEmbeddings ce f doc0 store0).saves.dropLast.tail,
      ∃ cp, d.embeddingProgress = some ⟨cp, 0⟩ ∧ 0 < cp) ∧
    (∀ d, (stopEmbeddingDocUpdate d).embeddingProgress = d.embeddingProgress) := by
  obtain ⟨doc2, hpd, hid, hmeta, hstat, hcomp, hmk, hprog, heq⟩ :=
    processDocumentEmbeddings_parts ce f doc0 store0
  have hprog2 : doc2.embeddingProgress = some ⟨0, 0⟩ := by
    rcases hfresh with h | h <;> simp [hprog, h]
  rw [heq]
  set L := embeddingLoop ce f doc2
    (doc2.pagesData.map (composeEmbeddingInput doc2)) doc2.pagesData 0 store0 with hL
  set docF : Document := { L.doc with
    embeddingStatus := .completed
    embeddingProgress := some ⟨0, 0⟩
    metadata := { L.doc.metadata with storageType := some "mongo" } } with hdocF
  have hsavesStat : ∀ d ∈ L.saves, d.embeddingStatus = EmbeddingStatus.processing := by
    intro d hd
    rw [hL] at hd
    unfold embeddingLoop at hd
    have := (embeddingLoopGo_saves_mem ce f
      (doc2.pagesData.map (composeEmbeddingInput doc2)).length _ le_rfl _ _ _ _ _ hd).1
    rw [this, hstat]
  refine ⟨?_, ?_, rfl, rfl, ?_, ?_, fun d => rfl⟩
  · show List.Chain' (· ≤ ·)
      (currentPageTrace ⟨docF, L.store, doc2 :: (L.saves ++ [docF]), L.calls, L.logs⟩)
    have htrace : currentPageTrace
        ⟨docF, L.store, doc2 :: (L.saves ++ [docF]), L.calls, L.logs⟩ =
        0 :: L.saves.map (fun d => (d.embeddingProgress.getD ⟨0, 0⟩).currentPage) := by
      unfold currentPageTrace processingSaves
      simp only [List.filter_cons, List.filter_append, List.filter_nil]
      rw [List.filter_eq_self.mpr (fun d hd => by simp [hsavesStat d hd])]
      simp [hstat, hprog2, hdocF]
    rw [htrace, List.chain'_cons']
    constructor
    · intro y hy
      exact Nat.zero_le y
    · rw [hL]
      unfold embeddingLoop
      exact embeddingLoopGo_trace_chain ce f
        (doc2.pagesData.map (composeEmbeddingInput doc2)).length _ le_rfl _ _ _ _
  · show (doc2 :: (L.saves ++ [docF])).getLast? = some docF
    rw [← List.cons_append, List.getLast?_concat]
  · show ∀ d ∈ (doc2 :: (L.saves ++ [docF])).dropLast,
      d.embeddingStatus = EmbeddingStatus.processing
    rw [← List.cons_append, List.dropLast_concat]
    intro d hd
    rcases List.mem_cons.mp hd with heq2 | hrest
    · rw [heq2]; exact hstat
    · exact hsavesStat d hrest
  · show ∀ d ∈ (doc2 :: (L.saves ++ [docF])).dropLast.tail,
      ∃ cp, d.embeddingProgress = some ⟨cp, 0⟩ ∧ 0 < cp
    rw [← List.cons_append, List.dropLast_concat]
    intro d hd
    simp only [List.tail_cons] at hd
    rw [hL] at hd
    unfold embeddingLoop at hd
    exact (embeddingLoopGo_saves_mem ce f
      (doc2.pagesData.map (composeEmbeddingInput doc2)).length _ le_rfl _ _ _ _ _ hd).2

theorem embedding_checkpoint_run_witness :
    ((fixtureDoc 41 (some ⟨0, 0⟩)).embeddingProgress = none ∨
      (fixtureDoc 41 (some ⟨0, 0⟩)).embeddingProgress = some ⟨0, 0⟩) ∧
    List.Chain' (· ≤ ·)
      (currentPageTrace (processDocumentEmbeddings fixtureEmbed fixtureNoFailure
        (fixtureDoc 41 (some ⟨0, 0⟩)) [])) :=
  ⟨Or.inr rfl,
    (embedding_checkpoint_run fixtureEmbed fixtureNoFailure
      (fixtureDoc 41 (some ⟨0, 0⟩)) [] (Or.inr rfl)).1⟩

/-- C2: a `startEmbedding` call that finds the document id in the in-flight
registry is rejected as already in progress and starts nothing; and after an
accepted start, an immediately following second call for the same id is
rejected as already in progress, starts no second run and leaves the
registry unchanged, so two calls in rapid succession yield exactly one run. -/
theorem start_embedding_single_run (registry : Registry)
    (lookup : Nat → Option Document) (documentId : Nat) :
    (documentId ∈ registry →
      startEmbedding registry lookup documentId =
        ⟨.alreadyInProgress, registry, false⟩) ∧
    (∀ d, lookup documentId = some d →
      d.embeddingStatus ≠ EmbeddingStatus.completed →
      documentId ∉ registry →
      (startEmbedding registry lookup documentId).runStarted = true ∧
      documentId ∈ (startEmbedding registry lookup documentId).registry ∧
      (startEmbedding (startEmbedding registry lookup documentId).registry
        lookup documentId).response = .alreadyInProgress ∧
      (startEmbedding (startEmbedding registry lookup documentId).registry
        lookup documentId).runStarted = false ∧
      (startEmbedding (startEmbedding registry lookup documentId).registry
        lookup documentId).registry =
        (startEmbedding registry lookup documentId).registry) := by
  constructor
  · intro h
    simp [startEmbedding, h]
  · intro d hd hc hn
    have h1 : startEmbedding registry lookup documentId =
        ⟨.started (d.embeddingStatus = EmbeddingStatus.processing),
          documentId :: registry, true⟩ := by
      simp [startEmbedding, hn, hd, hc]
    rw [h1]
    have h2 : startEmbedding (documentId :: registry) lookup documentId =
        ⟨.alreadyInProgress, documentId :: registry, false⟩ := by
      simp [startEmbedding]
    rw [h2]
    exact ⟨rfl, List.mem_cons_self _ _, rfl, rfl, rfl⟩

theorem start_embedding_single_run_witness :
    fixtureLookup 1 = some (fixtureDoc 3 none) ∧
    (fixtureDoc 3 none).embeddingStatus ≠ EmbeddingStatus.completed ∧
    (1 : Nat) ∉ ([] : Registry) ∧
    (startEmbedding (startEmbedding [] fixtureLookup 1).registry
      fixtureLookup 1).response = .alreadyInProgress :=
  ⟨rfl, by decide, by decide,
    ((start_embedding_single_run [] fixtureLookup 1).2 (fixtureDoc 3 none)
      rfl (by decide) (by decide)).2.2.1⟩

/-- C3: starting from a store satisfying the (documentId, pageNumber,
chunkIndex) uniqueness invariant, a full embedding run — including a re-run
over a store that already holds Vector Records — preserves the invariant
(duplicate inserts are absorbed, never creating a second record per triple),
never loses an existing record, and a per-record failure does not abort the
rest: every page whose insert the environment does not fail ends up with its
key present, regardless of duplicate or failed inserts before it. -/
theorem embedding_run_store (ce : List String → List (List Int))
    (f : VectorRecord → Option String) (doc0 : Document)
    (store0 : List VectorRecord) (hu : UniqueKeys store0) :
    UniqueKeys (processDocumentEmbeddings ce f doc0 store0).store ∧
    (∀ k ∈ storeKeys store0,
      k ∈ storeKeys (processDocumentEmbeddings ce f doc0 store0).store) ∧
    (∀ p ∈ doc0.pagesData, (∀ v, f (mkVectorRecord doc0 p v) = none) →
      (doc0.id, p.pageNumber, 0) ∈
        storeKeys (processDocumentEmbeddings ce f doc0 store0).store) := by
  obtain ⟨doc2, hpd, hid, hmeta, hstat, hcomp, hmk, hprog, heq⟩ :=
    processDocumentEmbeddings_parts ce f doc0 store0
  rw [heq]
  refine ⟨?_, ?_, ?_⟩
  · exact embeddingLoopGo_store_unique ce f
      (doc2.pagesData.map (composeEmbeddingInput doc2)).length _ le_rfl _ _ _ _ hu
  · intro k hk
    exact embeddingLoopGo_store_mono ce f
      (doc2.pagesData.map (composeEmbeddingInput doc2)).length _ le_rfl _ _ _ _ _ hk
  · intro p hp hf
    rw [← hid]
    refine embeddingLoopGo_covers ce f
      (doc2.pagesData.map (composeEmbeddingInput doc2)).length _ le_rfl _ _ _ _ _
      (by simp) (hpd ▸ hp) ?_
    rw [hmk]
    exact hf

theorem embedding_run_store_witness :
    UniqueKeys [] ∧
    UniqueKeys (processDocumentEmbeddings fixtureEmbed fixtureNoFailure
      (fixtureDoc 3 none) []).store :=
  ⟨by simp [UniqueKeys, storeKeys],
    (embedding_run_store fixtureEmbed fixtureNoFailure (fixtureDoc 3 none) []
      (by simp [UniqueKeys, storeKeys])).1⟩

/-- C4: one embedding run over a document with N pages makes exactly
⌈N / 20⌉ provider calls (BATCH_SIZE = 20), each call carries at most 20
text units, and the k-th call consists exactly of the text units of pages
20·k .. min(20·(k+1), N) − 1 of the `pagesData` sequence, i.e. the batches
cover the pages in page order. -/
theorem embedding_run_batches (ce : List String → List (List Int))
    (f : VectorRecord → Option String) (doc0 : Document)
    (store0 : List VectorRecord) :
    (processDocumentEmbeddings ce f doc0 store0).calls.length =
      (doc0.pagesData.length + (BATCH_SIZE - 1)) / BATCH_SIZE ∧
    (∀ c ∈ (processDocumentEmbeddings ce f doc0 store0).calls,
      c.length ≤ BATCH_SIZE) ∧
    (∀ k, (processDocumentEmbeddings ce f doc0 store0).calls.getD k [] =
      ((doc0.pagesData.map (composeEmbeddingInput doc0)).drop
        (BATCH_SIZE * k)).take BATCH_SIZE) := by
  obtain ⟨doc2, hpd, hid, hmeta, hstat, hcomp, hmk, hprog, heq⟩ :=
    processDocumentEmbeddings_parts ce f doc0 store0
  rw [heq]
  refine ⟨?_, ?_, ?_⟩
  · show (embeddingLoop ce f doc2 (doc2.pagesData.map (composeEmbeddingInput doc2))
      doc2.pagesData 0 store0).calls.length = _
    unfold embeddingLoop
    rw [embeddingLoopGo_calls_len ce f
      (doc2.pagesData.map (composeEmbeddingInput doc2)).length _ le_rfl]
    simp [hpd]
  · intro c hc
    exact embeddingLoopGo_calls_le ce f
      (doc2.pagesData.map (composeEmbeddingInput doc2)).length _ le_rfl _ _ _ _ _ hc
  · intro k
    show (embeddingLoop ce f doc2 (doc2.pagesData.map (composeEmbeddingInput doc2))
      doc2.pagesData 0 store0).calls.getD k [] = _
    unfold embeddingLoop
    rw [embeddingLoopGo_calls_getD ce f
      (doc2.pagesData.map (composeEmbeddingInput doc2)).length _ le_rfl]
    rw [hcomp, hpd]

theorem embedding_run_batches_witness :
    (processDocumentEmbeddings fixtureEmbed fixtureNoFailure
      (fixtureDoc 41 none) []).calls.length =
      ((fixtureDoc 41 none).pagesData.length + (BATCH_SIZE - 1)) / BATCH_SIZE ∧
    (processDocumentEmbeddings fixtureEmbed fixtureNoFailure
      (fixtureDoc 41 none) []).calls.getD 2 [] =
      (((fixtureDoc 41 none).pagesData.map
        (composeEmbeddingInput (fixtureDoc 41 none))).drop
        (BATCH_SIZE * 2)).take BATCH_SIZE :=
  ⟨(embedding_run_batches fixtureEmbed fixtureNoFailure (fixtureDoc 41 none) []).1,
    (embedding_run_batches fixtureEmbed fixtureNoFailure (fixtureDoc 41 none) []).2.2 2⟩

/-- C5: with the mistral parser, a requested document annotation and a
detected page count above the 8-page limit, the submission slice disables
the annotation (the dispatched options carry none) and still accepts the
job, creating the document in processing state; and if the backend call
with those options succeeds, background processing completes the parse. -/
theorem annotation_page_limit_fallback (incImg exH exF : Bool)
    (tf bbox : Option String) (ann : String) (pageCount : Nat)
    (baseDoc : Document) (hpc : 8 < pageCount) :
    submitForParsing "mistral" incImg exH exF tf (some ann) bbox pageCount baseDoc =
      .accepted
        { baseDoc with parsingStatus := .processing, originalText := "Processing..." }
        { includeImageBase64 := incImg, extractHeader := exH, extractFooter := exF,
          tableFormat := tf, documentAnnotation := none, bboxAnnotation := bbox } ∧
    (∀ (callMistral : MistralOptions → MistralOutcome)
       (lp : Except String JobResult) (mr : MistralResult),
      callMistral
        { includeImageBase64 := incImg, extractHeader := exH,
          extractFooter := exF, tableFormat := tf, documentAnnotation := none,
          bboxAnnotation := bbox } = .ok mr →
      (backgroundProcessDocument
        { baseDoc with parsingStatus := .processing, originalText := "Processing..." }
        "mistral"
        { includeImageBase64 := incImg, extractHeader := exH, extractFooter := exF,
          tableFormat := tf, documentAnnotation := none, bboxAnnotation := bbox }
        callMistral lp).1.parsingStatus = ParsingStatus.completed) := by
  constructor
  · simp [submitForParsing, mistralAnnotationSafetyCheck, hpc]
  · intro callMistral lp mr hok
    simp [backgroundProcessDocument, runMistralWithRetry, hok, applySuccessUpdate]

theorem annotation_page_limit_fallback_witness :
    (8 : Nat) < 9 ∧
    submitForParsing "mistral" false false false none (some "schema") none 9
      (fixtureDoc 0 none) =
      .accepted
        { fixtureDoc 0 none with
            parsingStatus := .processing, originalText := "Processing..." }
        { includeImageBase64 := false, extractHeader := false, extractFooter := false,
          tableFormat := none, documentAnnotation := none, bboxAnnotation := none } :=
  ⟨by decide,
    (annotation_page_limit_fallback false false false none none "schema" 9
      (fixtureDoc 0 none) (by decide)).1⟩

/-- C6: when the mistral call fails and an annotation had been requested,
background processing retries exactly once with both annotations disabled
(exactly two submissions, the second without annotations); if that retry
also fails, or if no annotation was requested (one submission only), the
document is updated to `parsingStatus = failed` with the error message
persisted into `metadata.error`; and no execution ever submits more than
two calls. -/
theorem parse_retry_once (doc : Document) (options : MistralOptions)
    (callMistral : MistralOptions → MistralOutcome)
    (lp : Except String JobResult) (e1 : String)
    (hfail : callMistral options = .err e1) :
    (( options.documentAnnotation.isSome ∨ options.bboxAnnotation.isSome) →
      (backgroundProcessDocument doc "mistral" options callMistral lp).2 =
        [options,
         { options with documentAnnotation := none, bboxAnnotation := none }] ∧
      (∀ e2, callMistral
          { options with documentAnnotation := none, bboxAnnotation := none } =
          .err e2 →
        (backgroundProcessDocument doc "mistral" options callMistral lp).1 =
          applyFailureUpdate doc e2 ∧
        (backgroundProcessDocument doc "mistral" options callMistral lp).1.parsingStatus =
          ParsingStatus.failed ∧
        (backgroundProcessDocument doc "mistral" options callMistral lp).1.metadata.error =
          some e2)) ∧
    (( options.documentAnnotation = none ∧ options.bboxAnnotation = none) →
      (backgroundProcessDocument doc "mistral" options callMistral lp).2 = [options] ∧
      (backgroundProcessDocument doc "mistral" options callMistral lp).1 =
        applyFailureUpdate doc e1 ∧
      (backgroundProcessDocument doc "mistral" options callMistral lp).1.parsingStatus =
        ParsingStatus.failed ∧
      (backgroundProcessDocument doc "mistral" options callMistral lp).1.metadata.error =
        some e1) ∧
    (∀ (opts' : MistralOptions) (cm' : MistralOptions → MistralOutcome)
       (lp' : Except String JobResult),
      (backgroundProcessDocument doc "mistral" opts' cm' lp').2.length ≤ 2) := by
  refine ⟨?_, ?_, ?_⟩
  · intro hreq
    have hor : options.documentAnnotation.isSome = true ∨
        options.bboxAnnotation.isSome = true := by
      rcases hreq with h | h
      · exact Or.inl h
      · exact Or.inr h
    constructor
    · simp [backgroundProcessDocument, runMistralWithRetry, hfail, hreq]
      cases hret : callMistral
          { options with documentAnnotation := none, bboxAnnotation := none } <;>
        simp [hret]
    · intro e2 hret
      refine ⟨?_, ?_, ?_⟩ <;>
        simp [backgroundProcessDocument, runMistralWithRetry, hfail, hreq, hret,
          applyFailureUpdate]
  · intro ⟨h1, h2⟩
    refine ⟨?_, ?_, ?_, ?_⟩ <;>
      simp [backgroundProcessDocument, runMistralWithRetry, hfail, h1, h2,
        applyFailureUpdate]
  · intro opts' cm' lp'
    simp only [backgroundProcessDocument]
    cases hc : cm' opts' with
    | ok r => simp [runMistralWithRetry, hc]
    | err e =>
      by_cases hreq : opts'.documentAnnotation.isSome ∨ opts'.bboxAnnotation.isSome
      · simp only [runMistralWithRetry, hc, hreq, if_true]
        cases cm' { opts' with documentAnnotation := none, bboxAnnotation := none } <;>
          simp
      · simp [runMistralWithRetry, hc, hreq]

theorem parse_retry_once_witness :
    fixtureCallFail fixtureOptions = .err "Parsing job timed out" ∧
    fixtureOptions.documentAnnotation.isSome = true ∧
    (backgroundProcessDocument (fixtureDoc 0 none) "mistral" fixtureOptions
      fixtureCallFail (.error "x")).2 =
      [fixtureOptions,
       { fixtureOptions with documentAnnotation := none, bboxAnnotation := none }] :=
  ⟨rfl, rfl,
    ((parse_retry_once (fixtureDoc 0 none) fixtureOptions fixtureCallFail
      (.error "x") "Parsing job timed out" rfl).1 (Or.inl rfl)).1⟩

/-- C7: the job monitor waits a fixed 2000 ms before each poll (default
attempt bound 300, i.e. about ten minutes); when every poll within the bound
is non-terminal it raises exactly the timeout message after `maxAttempts`
polls; when the first terminal poll reports SUCCESS it returns that
response; when it reports ERROR or FAILED it raises the backend message,
which — when the backend supplies no message of its own — is the status
template, a string always distinct from the timeout message. -/
theorem monitor_job_contract (poll : Nat → JobStatusResponse)
    (maxAttempts : Nat) :
    ((∀ j, j < maxAttempts → NonTerminal (poll j)) →
      monitorJob poll maxAttempts =
        ⟨.error "Parsing job timed out", maxAttempts,
          List.replicate maxAttempts POLL_INTERVAL_MS⟩) ∧
    (∀ k, k < maxAttempts → (∀ j, j < k → NonTerminal (poll j)) →
      (poll k).status = "SUCCESS" →
      monitorJob poll maxAttempts =
        ⟨.ok (poll k), k + 1, List.replicate (k + 1) POLL_INTERVAL_MS⟩) ∧
    (∀ k, k < maxAttempts → (∀ j, j < k → NonTerminal (poll j)) →
      ((poll k).status = "ERROR" ∨ (poll k).status = "FAILED") →
      monitorJob poll maxAttempts =
        ⟨.error (backendFailureMessage (poll k)), k + 1,
          List.replicate (k + 1) POLL_INTERVAL_MS⟩) ∧
    (∀ r : JobStatusResponse, r.error_message = none → r.detail = none →
      backendFailureMessage r = "Parsing job failed with status: " ++ r.status) ∧
    (∀ s : String, "Parsing job failed with status: " ++ s ≠ "Parsing job timed out") ∧
    LLAMAINDEX_DEFAULT_MAX_ATTEMPTS = 300 ∧ POLL_INTERVAL_MS = 2000 := by
  refine ⟨?_, ?_, ?_, ?_, ?_, rfl, rfl⟩
  · intro hnt
    exact monitorJobLoop_timeout poll maxAttempts maxAttempts 0 rfl (Nat.zero_le _)
      (fun j _ hj2 => hnt j hj2)
  · intro k hk hnt hsucc
    exact monitorJobLoop_success poll k maxAttempts 0 k rfl (Nat.zero_le _) hk
      (fun j _ hj2 => hnt j hj2) hsucc
  · intro k hk hnt herr
    exact monitorJobLoop_backend_error poll k maxAttempts 0 k rfl (Nat.zero_le _) hk
      (fun j _ hj2 => hnt j hj2) herr
  · intro r h1 h2
    simp [backendFailureMessage, h1, h2, jsOrString]
  · intro s h
    have hlen := congrArg String.length h
    rw [String.length_append] at hlen
    have h1 : ("Parsing job failed with status: ").length = 32 := rfl
    have h2 : ("Parsing job timed out").length = 21 := rfl
    rw [h1, h2] at hlen
    omega

theorem monitor_job_contract_witness :
    (∀ j, j < 2 → NonTerminal (fixturePoll j)) ∧
    monitorJob fixturePoll 2 =
      ⟨.error "Parsing job timed out", 2, List.replicate 2 POLL_INTERVAL_MS⟩ :=
  ⟨fun j _ => ⟨by simp [fixturePoll], by simp [fixturePoll], by simp [fixturePoll]⟩,
    (monitor_job_contract fixturePoll 2).1
      (fun j _ => ⟨by simp [fixturePoll], by simp [fixturePoll], by simp [fixturePoll]⟩)⟩

/-- C8: when the structured JSON result of a successfully completed job is
absent (the fetch throws or carries no usable structure) or malformed (a
string payload the JSON parser rejects), `processJobResult` raises no error:
it falls back to the flat-text result and returns exactly one normalized
page — never zero — whose text is the full flat text (in its cleaned form),
which is also the result's full text. -/
theorem flat_text_fallback (jobId : Nat) (parseJson : String → Option JsonData)
    (flatText : String) (jobDetails : JobDetails) :
    (∀ msg, (processJobResult jobId (.error msg) parseJson flatText jobDetails).pages =
        [{ pageNumber := 1, text := cleanParsedText flatText,
           markdown := cleanParsedText flatText, summary := "No summary available",
           wordCount := countWords (cleanParsedText flatText),
           characterCount := (cleanParsedText flatText).length }] ∧
      (processJobResult jobId (.error msg) parseJson flatText jobDetails).text =
        cleanParsedText flatText ∧
      (processJobResult jobId (.error msg) parseJson flatText jobDetails).success = true) ∧
    ((processJobResult jobId (.ok .other) parseJson flatText jobDetails).pages =
        [{ pageNumber := 1, text := cleanParsedText flatText,
           markdown := cleanParsedText flatText, summary := "No summary available",
           wordCount := countWords (cleanParsedText flatText),
           characterCount := (cleanParsedText flatText).length }] ∧
      (processJobResult jobId (.ok .other) parseJson flatText jobDetails).text =
        cleanParsedText flatText ∧
      (processJobResult jobId (.ok .other) parseJson flatText jobDetails).success = true) ∧
    (∀ s, parseJson (stripOuterCodeFence s) = none →
      (processJobResult jobId (.ok (.str s)) parseJson flatText jobDetails).pages =
        [{ pageNumber := 1, text := cleanParsedText flatText,
           markdown := cleanParsedText flatText, summary := "No summary available",
           wordCount := countWords (cleanParsedText flatText),
           characterCount := (cleanParsedText flatText).length }] ∧
      (processJobResult jobId (.ok (.str s)) parseJson flatText jobDetails).pages.length = 1) := by
  refine ⟨?_, ?_, ?_⟩
  · intro msg
    refine ⟨?_, rfl, rfl⟩
    simp [processJobResult]
  · refine ⟨?_, rfl, rfl⟩
    simp [processJobResult]
  · intro s hp
    constructor
    · simp [processJobResult, hp]
    · simp [processJobResult, hp]

theorem flat_text_fallback_witness :
    fixtureParseFail (stripOuterCodeFence "not json") = none ∧
    (processJobResult 5 (.ok (.str "not json")) fixtureParseFail "hello world"
      fixtureDetails).pages.length = 1 :=
  ⟨rfl,
    ((flat_text_fallback 5 fixtureParseFail "hello world" fixtureDetails).2.2
      "not json" rfl).2⟩

/-- C9: on every parse failure — the llama branch failing (including with
the polling-timeout message) and the mistral branch failing with or without
the annotation retry — the background handler writes exactly the failure
update: `parsingStatus = failed` and `metadata.error` set to the message,
with `pagesData`, `originalText`, `pages`, the table/image aggregates and
every other document and metadata field unchanged. -/
theorem parse_failure_frame (doc : Document) (options : MistralOptions)
    (callMistral : MistralOptions → MistralOutcome) (e : String) :
    (backgroundProcessDocument doc "llama" options callMistral (.error e)).1 =
      applyFailureUpdate doc e ∧
    (∀ lp, callMistral options = .err e →
      options.documentAnnotation = none → options.bboxAnnotation = none →
      (backgroundProcessDocument doc "mistral" options callMistral lp).1 =
        applyFailureUpdate doc e) ∧
    (∀ lp e1, callMistral options = .err e1 →
      ( options.documentAnnotation.isSome ∨ options.bboxAnnotation.isSome) →
      callMistral { options with
        documentAnnotation := none, bboxAnnotation := none } = .err e →
      (backgroundProcessDocument doc "mistral" options callMistral lp).1 =
        applyFailureUpdate doc e) ∧
    applyFailureUpdate doc e =
      { doc with
        parsingStatus := .failed
        metadata := { doc.metadata with error := some e } } ∧
    (applyFailureUpdate doc e).parsingStatus = ParsingStatus.failed ∧
    (applyFailureUpdate doc e).metadata.error = some e ∧
    (applyFailureUpdate doc e).pagesData = doc.pagesData ∧
    (applyFailureUpdate doc e).originalText = doc.originalText ∧
    (applyFailureUpdate doc e).pages = doc.pages ∧
    (applyFailureUpdate doc e).tables = doc.tables ∧
    (applyFailureUpdate doc e).images = doc.images ∧
    (applyFailureUpdate doc e).editedText = doc.editedText ∧
    (applyFailureUpdate doc e).embeddingStatus = doc.embeddingStatus ∧
    (applyFailureUpdate doc e).embeddingProgress = doc.embeddingProgress ∧
    (applyFailureUpdate doc e).metadata.model = doc.metadata.model := by
  refine ⟨?_, ?_, ?_, rfl, rfl, rfl, rfl, rfl, rfl, rfl, rfl, rfl, rfl, rfl, rfl⟩
  · simp [backgroundProcessDocument]
  · intro lp h1 h2 h3
    simp [backgroundProcessDocument, runMistralWithRetry, h1, h2, h3]
  · intro lp e1 h1 hreq h2
    have hor : options.documentAnnotation.isSome = true ∨
        options.bboxAnnotation.isSome = true := by
      rcases hreq with h | h
      · exact Or.inl h
      · exact Or.inr h
    simp [backgroundProcessDocument, runMistralWithRetry, h1, hor, h2]

theorem parse_failure_frame_witness :
    (backgroundProcessDocument (fixtureDoc 0 none) "llama" fixtureOptions
      fixtureCallFail (.error "Parsing job timed out")).1 =
      applyFailureUpdate (fixtureDoc 0 none) "Parsing job timed out" ∧
    (applyFailureUpdate (fixtureDoc 0 none) "Parsing job timed out").pagesData =
      (fixtureDoc 0 none).pagesData :=
  ⟨(parse_failure_frame (fixtureDoc 0 none) fixtureOptions fixtureCallFail
      "Parsing job timed out").1,
    (parse_failure_frame (fixtureDoc 0 none) fixtureOptions fixtureCallFail
      "Parsing job timed out").2.2.2.2.2.2.1⟩

/-- C10: `stopEmbedding` unconditionally removes the id from the in-flight
registry and sets `embeddingStatus = not_started` on every existing document
— including one whose embedding is already completed — so a subsequent
`startEmbedding` for that document is accepted (the already-completed guard
no longer applies) and launches a fresh run. -/
theorem stop_embedding_resets (registry : Registry)
    (lookup : Nat → Option Document) (documentId : Nat) (d : Document)
    (hd : lookup documentId = some d) :
    (stopEmbedding registry lookup documentId).lookup documentId =
      some { d with embeddingStatus := .not_started } ∧
    documentId ∉ (stopEmbedding registry lookup documentId).registry ∧
    (startEmbedding (stopEmbedding registry lookup documentId).registry
      (stopEmbedding registry lookup documentId).lookup documentId).response =
      .started false ∧
    (startEmbedding (stopEmbedding registry lookup documentId).registry
      (stopEmbedding registry lookup documentId).lookup documentId).runStarted =
      true := by
  have hl : (stopEmbedding registry lookup documentId).lookup documentId =
      some { d with embeddingStatus := .not_started } := by
    simp [stopEmbedding, hd, stopEmbeddingDocUpdate]
  have hr : documentId ∉ (stopEmbedding registry lookup documentId).registry := by
    simp [stopEmbedding]
  refine ⟨hl, hr, ?_, ?_⟩ <;>
    simp [startEmbedding, hr, hl]

theorem stop_embedding_resets_witness :
    fixtureLookupDone 1 = some fixtureDocDone ∧
    fixtureDocDone.embeddingStatus = EmbeddingStatus.completed ∧
    (startEmbedding (stopEmbedding [] fixtureLookupDone 1).registry
      (stopEmbedding [] fixtureLookupDone 1).lookup 1).runStarted = true :=
  ⟨rfl, rfl,
    (stop_embedding_resets [] fixtureLookupDone 1 fixtureDocDone rfl).2.2.2⟩

end PdfTool
